import Mathlib

/-!
# CPU load generator: input handler, load worker budget and display bands

A shallow embedding of `src/main.cpp` (class `CPUHeater`, POSIX branch of the
`#ifdef _WIN32` conditionals) and the properties of it that are established here.

* `int` values are mathematical integers; every read-modify-write of the atomic
  `intensity` goes through `wrapInt32`, the two's-complement wrap of a 32-bit `int`.
* The pending terminal input is a list of `getchar()` results, oldest first.
* Every value stored to the atomic `intensity` is appended to a log, so that what a
  concurrent reader may load between two stores can be stated.
-/

namespace CPUHeater

/-! ## Machine integers -/

/-- Two's-complement wrap of an integer into the range of a 32-bit `int`. -/
def wrapInt32 (x : Int) : Int := (x + 2147483648) % 4294967296 - 2147483648

/-! ## Shared control state -/

/-- The two atomics of `CPUHeater`: `std::atomic<bool> running` and
`std::atomic<int> intensity`. -/
structure State where
  running : Bool
  intensity : Int
  deriving DecidableEq

/-- The member initialisers of the constructor: `running(true), intensity(0)`. -/
def initial : State := { running := true, intensity := 0 }

/-- The input thread in the middle of `handleInput`: the shared state, the bytes
waiting on standard input and the values stored to `intensity` so far (oldest first). -/
structure Exec where
  st : State
  kbd : List Int
  stores : List Int
  deriving DecidableEq

/-- An atomic store `intensity = v` (also the store half of `++`, `--`, `+=`, `-=`). -/
def Exec.store (e : Exec) (v : Int) : Exec :=
  { e with st := { e.st with intensity := v }, stores := e.stores ++ [v] }

/-- The store `running = false`. -/
def Exec.stop (e : Exec) : Exec :=
  { e with st := { e.st with running := false } }

/-! ## Input source -/

/-- The value of the C macro `EOF`. -/
def EOF : Int := -1

/-- POSIX branch of `KeyboardInput::kbhit`: `byteswaiting > 0`, taken on the list that
`getKey` reads. The list holds every byte `getchar()` has not returned yet, while
`FIONREAD` counts only the bytes still in the queue of the descriptor; the two agree
whenever the buffer of `getchar()` is empty, as when the codes of one key arrive per
poll. With several keys waiting at once the program may leave in that buffer, until the
next byte arrives, keys that the loop below takes at once. -/
def kbhit (e : Exec) : Bool := decide (0 < e.kbd.length)

/-- POSIX branch of `KeyboardInput::getKey`: `getchar()` on the non-blocking
standard input, where nothing waiting gives `EOF`, and `EOF` is returned as `0`. -/
def getKey (e : Exec) : Int × Exec :=
  match e.kbd with
  | [] => (0, e)
  | ch :: rest => (if ch = EOF then 0 else ch, { e with kbd := rest })

/-! ## Input handler -/

/-- Lines 278-287 of `handleInput`: the escape-prefix block. Returns the value the
local variable `key` holds after the block together with the execution state. -/
def escapeBlock (key : Int) (e : Exec) : Int × Exec :=
  if key = 27 then
    let (k2, e) := getKey e
    if k2 = 91 then
      let (key, e) := getKey e
      if key = 65 then
        (key, if e.st.intensity < 100 then e.store (wrapInt32 (e.st.intensity + 1)) else e)
      else if key = 66 then
        (key, if e.st.intensity > 0 then e.store (wrapInt32 (e.st.intensity - 1)) else e)
      else (key, e)
    else (key, e)
  else (key, e)

/-- Lines 291-303 of `handleInput`: the chain of tests on `key` shared by both
platforms, with the character literals as their codes: `q` 113, `Q` 81, `+` 43, `=` 61,
`-` 45, `_` 95, `0` 48, `5` 53, `9` 57. -/
def sharedKeys (key : Int) (e : Exec) : Exec :=
  if key = 113 ∨ key = 81 then e.stop
  else if key = 43 ∨ key = 61 then
    (if e.st.intensity < 100 then e.store (wrapInt32 (e.st.intensity + 5)) else e)
  else if key = 45 ∨ key = 95 then
    (if e.st.intensity > 0 then e.store (wrapInt32 (e.st.intensity - 5)) else e)
  else if key = 48 then e.store 0
  else if key = 53 then e.store 50
  else if key = 57 then e.store 100
  else e

/-- Lines 306-307 of `handleInput`: the two trailing bounds checks. -/
def boundsCheck (e : Exec) : Exec :=
  let e := if e.st.intensity > 100 then e.store 100 else e
  if e.st.intensity < 0 then e.store 0 else e

/-- The value of the local variable `key` when line 291 tests it. -/
def keyTested (e : Exec) : Int :=
  let (key, e) := getKey e
  (escapeBlock key e).1

/-- Lines 265-307 of `handleInput`: the body of `if (keyboard.kbhit())`, which handles
one key. -/
def handleKey (e : Exec) : Exec :=
  let (key, e) := getKey e
  let (key, e) := escapeBlock key e
  boundsCheck (sharedKeys key e)

/-- The input loop run on the bytes waiting: iterations of `while (running)` whose
`kbhit()` test succeeds, until the flag is false or nothing is waiting (the sleep of
an iteration leaves the state as it is). Returns the shared state after each key
handled, in order, and the execution state when the loop stops. Each iteration that
handles a key takes at least one byte, so `fuel` equal to the number of bytes waiting
is enough. -/
def handleInputLoop : Nat → Exec → List State × Exec
  | 0, e => ([], e)
  | fuel + 1, e =>
    if e.st.running && kbhit e then
      let e1 := handleKey e
      let r := handleInputLoop fuel e1
      (e1.st :: r.1, r.2)
    else ([], e)

/-- The input thread at the start of `handleInput` with the given bytes waiting. -/
def startExec (s : State) (keys : List Int) : Exec :=
  { st := s, kbd := keys, stores := [] }

/-- Line 360 of `start`: `running = false` after the input thread is joined. -/
def shutdownStore (s : State) : State := { s with running := false }

/-! ## Load worker -/

/-- The constant `CYCLE_TIME_MS` of `workerThread`. -/
def CYCLE_TIME_MS : Int := 100

/-- Line 199 of `workerThread`: `(intensity * CYCLE_TIME_MS) / 100` on `int`, the
product wrapped to 32 bits and the division truncating towards zero. -/
def calculationTimeMs (intensity : Int) : Int :=
  Int.tdiv (wrapInt32 (intensity * CYCLE_TIME_MS)) 100

/-- Line 202 of `workerThread`: `cycleStart + milliseconds(calculationTimeMs)`, with
time points counted in ticks of the clock, `ticksPerMs` of them to a millisecond. -/
def calculationEnd (ticksPerMs : Nat) (cycleStart intensity : Int) : Int :=
  cycleStart + calculationTimeMs intensity * ticksPerMs

/-- Line 222 of `workerThread`: `cycleStart + milliseconds(CYCLE_TIME_MS)`. -/
def cycleEnd (ticksPerMs : Nat) (cycleStart : Int) : Int :=
  cycleStart + CYCLE_TIME_MS * ticksPerMs

/-- The condition of the busy loop at line 204, evaluated at clock reading `now`. -/
def busyCondition (now calcEnd : Int) (running : Bool) : Bool :=
  decide (now < calcEnd) && running

/-- Lines 224-226 of `workerThread`: the duration handed to `sleep_for`, or `none`
when the call is skipped. -/
def idleSleep (currentTime cycEnd : Int) : Option Int :=
  if currentTime < cycEnd then some (cycEnd - currentTime) else none

/-! ## Display loop -/

/-- The constant `COLOR_HOT`. -/
def COLOR_HOT : Int := 12
/-- The constant `COLOR_WARM`. -/
def COLOR_WARM : Int := 6
/-- The constant `COLOR_COOL`. -/
def COLOR_COOL : Int := 10

/-- Lines 235-236 of `displayThread`: the argument of `setTextColor`, with every load
of `intensity` in the expression returning the same value. -/
def displayColor (intensity : Int) : Int :=
  if intensity > 75 then COLOR_HOT
  else if intensity > 40 then COLOR_WARM
  else COLOR_COOL

/-- Lines 250-256 of `displayThread`: the string literal written after the percentage,
with every load of `intensity` returning the same value. -/
def displayLabel (intensity : Int) : String :=
  if intensity > 75 then "MAXIMUM LOAD    "
  else if intensity > 40 then "HIGH LOAD       "
  else "MODERATE LOAD   "

/-- Lines 241-247 of `displayThread`: the characters written between `[` and `]`, one
per iteration of `for (int i = 0; i < 50; ++i)`, with every load of `intensity`
returning the same value; `intensity / 2` truncates towards zero. -/
def displayBar (intensity : Int) : List Char :=
  (List.range 50).map fun (i : Nat) => if (i : Int) < Int.tdiv intensity 2 then '#' else ' '

/-- A label without the blanks that pad it on the right. -/
def unpadded (label : String) : String :=
  String.mk (label.data.reverse.dropWhile fun c => c = ' ').reverse

/-- The number of `#` cells of a bar. -/
def filledCells (bar : List Char) : Nat := bar.count '#'

/-! ## Lemmas on the input handler -/

theorem boundsCheck_range (e : Exec) :
    0 ≤ (boundsCheck e).st.intensity ∧ (boundsCheck e).st.intensity ≤ 100 := by
  unfold boundsCheck
  by_cases h1 : e.st.intensity > 100
  · simp [h1, Exec.store]
  · by_cases h2 : e.st.intensity < 0
    · simp [h1, h2, Exec.store]
    · simp only [h1, h2, if_false]
      omega

theorem boundsCheck_of_range (e : Exec) (h0 : 0 ≤ e.st.intensity)
    (h1 : e.st.intensity ≤ 100) : boundsCheck e = e := by
  unfold boundsCheck
  have h2 : ¬ e.st.intensity > 100 := by omega
  have h3 : ¬ e.st.intensity < 0 := by omega
  simp [h2, h3]

theorem boundsCheck_running (e : Exec) : (boundsCheck e).st.running = e.st.running := by
  unfold boundsCheck
  by_cases h1 : e.st.intensity > 100
  · simp [h1, Exec.store]
  · by_cases h2 : e.st.intensity < 0
    · simp [h1, h2, Exec.store]
    · simp [h1, h2]

theorem handleKey_range (e : Exec) :
    0 ≤ (handleKey e).st.intensity ∧ (handleKey e).st.intensity ≤ 100 := by
  unfold handleKey
  exact boundsCheck_range _

theorem boundsCheck_kbd (e : Exec) : (boundsCheck e).kbd = e.kbd := by
  unfold boundsCheck
  by_cases h1 : e.st.intensity > 100
  · simp [h1, Exec.store]
  · by_cases h2 : e.st.intensity < 0
    · simp [h1, h2, Exec.store]
    · simp [h1, h2]

theorem sharedKeys_kbd (key : Int) (e : Exec) : (sharedKeys key e).kbd = e.kbd := by
  unfold sharedKeys
  split_ifs <;> simp [Exec.store, Exec.stop]

theorem getKey_kbd_le (e : Exec) : (getKey e).2.kbd.length ≤ e.kbd.length := by
  rcases e with ⟨s, kbd, log⟩
  cases kbd <;> simp [getKey]

theorem getKey_kbd_lt (e : Exec) (h : e.kbd ≠ []) :
    (getKey e).2.kbd.length < e.kbd.length := by
  rcases e with ⟨s, kbd, log⟩
  cases kbd with
  | nil => exact absurd rfl h
  | cons a l => simp [getKey]

theorem escapeBlock_kbd_le (key : Int) (e : Exec) :
    (escapeBlock key e).2.kbd.length ≤ e.kbd.length := by
  have a := getKey_kbd_le e
  have b := getKey_kbd_le (getKey e).2
  unfold escapeBlock
  dsimp only
  split_ifs <;> simp only [Exec.store] <;> omega

theorem handleKey_kbd_lt (e : Exec) (h : e.kbd ≠ []) :
    (handleKey e).kbd.length < e.kbd.length := by
  have a := getKey_kbd_lt e h
  have b := escapeBlock_kbd_le (getKey e).1 (getKey e).2
  unfold handleKey
  simp only [boundsCheck_kbd, sharedKeys_kbd]
  omega

theorem handleInputLoop_trace_range (fuel : Nat) (e : Exec) :
    ∀ s ∈ (handleInputLoop fuel e).1, 0 ≤ s.intensity ∧ s.intensity ≤ 100 := by
  induction fuel generalizing e with
  | zero => intro s hs; simp [handleInputLoop] at hs
  | succ n ih =>
    intro s hs
    unfold handleInputLoop at hs
    split_ifs at hs with hc
    · rcases List.mem_cons.mp hs with h | h
      · rw [h]; exact handleKey_range e
      · exact ih _ s h
    · simp at hs

theorem handleInputLoop_done (fuel : Nat) (e : Exec) (h : e.kbd.length ≤ fuel) :
    (handleInputLoop fuel e).2.st.running = false ∨ (handleInputLoop fuel e).2.kbd = [] := by
  induction fuel generalizing e with
  | zero =>
    right
    simpa [handleInputLoop] using h
  | succ n ih =>
    unfold handleInputLoop
    split_ifs with hc
    · simp only [Bool.and_eq_true, kbhit, decide_eq_true_eq] at hc
      have hne : e.kbd ≠ [] := by
        intro h0
        rw [h0] at hc
        simp at hc
      have := handleKey_kbd_lt e hne
      exact ih _ (by omega)
    · simp only [Bool.and_eq_true, kbhit, decide_eq_true_eq, not_and] at hc
      by_cases hr : e.st.running = true
      · right
        have := hc hr
        show e.kbd = []
        exact List.length_eq_zero.mp (by omega)
      · left
        show e.st.running = false
        simpa using hr

theorem handleInputLoop_final_range (fuel : Nat) (e : Exec) (h0 : 0 ≤ e.st.intensity)
    (h1 : e.st.intensity ≤ 100) :
    0 ≤ (handleInputLoop fuel e).2.st.intensity ∧
      (handleInputLoop fuel e).2.st.intensity ≤ 100 := by
  induction fuel generalizing e with
  | zero => exact ⟨h0, h1⟩
  | succ n ih =>
    unfold handleInputLoop
    split_ifs with hc
    · exact ih _ (handleKey_range e).1 (handleKey_range e).2
    · exact ⟨h0, h1⟩

/-! ## Saturation of the intensity -/

/-- C1: from the initial state (intensity 0, running true), for every finite sequence
of key codes waiting on the input, the intensity left after each key handled by the
input loop lies in [0, 100], and so does the intensity when the loop stops; with as
many iterations as there are codes the loop has stopped (running is false) or has
taken every code. The same bounds hold after one key handled from any state on any
input. -/
theorem intensity_saturates (keys : List Int) (fuel : Nat) (e : Exec) :
    (∀ s ∈ (handleInputLoop fuel (startExec initial keys)).1,
        0 ≤ s.intensity ∧ s.intensity ≤ 100) ∧
    (0 ≤ (handleInputLoop fuel (startExec initial keys)).2.st.intensity ∧
      (handleInputLoop fuel (startExec initial keys)).2.st.intensity ≤ 100) ∧
    ((handleInputLoop keys.length (startExec initial keys)).2.st.running = false ∨
      (handleInputLoop keys.length (startExec initial keys)).2.kbd = []) ∧
    (0 ≤ (handleKey e).st.intensity ∧ (handleKey e).st.intensity ≤ 100) :=
  ⟨handleInputLoop_trace_range fuel _,
   handleInputLoop_final_range fuel _ (by simp [startExec, initial])
     (by simp [startExec, initial]),
   handleInputLoop_done keys.length _ (le_of_eq rfl),
   handleKey_range e⟩

/-- Witness of C1: after `9`, Down, Down, `+`, `+`, `-` the third state of the trace
is `running = true, intensity = 98` and lies in the range. -/
theorem intensity_saturates_witness :
    State.mk true 98 ∈ (handleInputLoop 10
      (startExec initial [57, 27, 91, 66, 27, 91, 66, 43, 43, 45])).1 ∧
    (0 : Int) ≤ (State.mk true 98).intensity ∧ (State.mk true 98).intensity ≤ 100 :=
  ⟨by decide,
   (intensity_saturates [57, 27, 91, 66, 27, 91, 66, 43, 43, 45] 10
      (startExec initial [])).1 (State.mk true 98) (by decide)⟩

/-- C2, the code at the failing input: with intensity 96 the key `+` stores 101 to the
atomic `intensity` before the trailing bounds check stores 100, and with intensity 3
the key `-` stores -2 before 0 is stored; the state with intensity 96 is reached from
the initial state by `9` and four Down arrows, and a load worker that reads 104
computes a busy budget above the cycle time. -/
theorem plus_key_stores_out_of_range :
    (handleKey (startExec (State.mk true 96) [43])).stores = [101, 100] ∧
    (handleKey (startExec (State.mk true 3) [45])).stores = [-2, 0] ∧
    (handleInputLoop 14 (startExec initial
      [57, 27, 91, 66, 27, 91, 66, 27, 91, 66, 27, 91, 66, 43])).2.stores
      = [100, 99, 98, 97, 96, 101, 100] ∧
    (handleKey (startExec (State.mk true 99) [61])).stores = [104, 100] ∧
    CYCLE_TIME_MS < calculationTimeMs 104 := by
  decide

/-! ## Lemmas on single keys -/

theorem State.eq_of_fields {a b : State} (h1 : a.running = b.running)
    (h2 : a.intensity = b.intensity) : a = b := by
  cases a; cases b; simp only [State.mk.injEq]; exact ⟨h1, h2⟩

theorem store_intensity (e : Exec) (v : Int) : (e.store v).st.intensity = v := rfl
theorem store_running (e : Exec) (v : Int) : (e.store v).st.running = e.st.running := rfl
theorem stop_running (e : Exec) : e.stop.st.running = false := rfl

theorem boundsCheck_intensity (e : Exec) :
    (boundsCheck e).st.intensity = min 100 (max 0 e.st.intensity) := by
  unfold boundsCheck
  by_cases h1 : e.st.intensity > 100
  · simp only [h1, if_true, store_intensity]
    rw [if_neg (by decide)]
    simp only [store_intensity]
    omega
  · by_cases h2 : e.st.intensity < 0
    · simp only [h1, h2, if_false, if_true, store_intensity]
      omega
    · simp only [h1, h2, if_false]
      omega

theorem wrapInt32_of_small (x : Int) (h0 : -2147483648 ≤ x) (h1 : x < 2147483648) :
    wrapInt32 x = x := by
  unfold wrapInt32
  omega

theorem handleKey_single (s : State) (k : Int) (rest log : List Int) (hk : k ≠ 27) :
    handleKey ⟨s, k :: rest, log⟩
      = boundsCheck (sharedKeys (if k = EOF then 0 else k) ⟨s, rest, log⟩) := by
  by_cases h : k = -1
  · subst h
    simp [handleKey, getKey, escapeBlock, EOF]
  · simp [handleKey, getKey, escapeBlock, EOF, h, hk]

theorem handleKey_up (s : State) (rest log : List Int) :
    handleKey ⟨s, 27 :: 91 :: 65 :: rest, log⟩
      = boundsCheck (if s.intensity < 100
          then Exec.store ⟨s, rest, log⟩ (wrapInt32 (s.intensity + 1)) else ⟨s, rest, log⟩) := by
  simp [handleKey, getKey, escapeBlock, EOF, sharedKeys]

theorem handleKey_down (s : State) (rest log : List Int) :
    handleKey ⟨s, 27 :: 91 :: 66 :: rest, log⟩
      = boundsCheck (if s.intensity > 0
          then Exec.store ⟨s, rest, log⟩ (wrapInt32 (s.intensity - 1)) else ⟨s, rest, log⟩) := by
  simp [handleKey, getKey, escapeBlock, EOF, sharedKeys]

theorem sharedKeys_plus (k : Int) (e : Exec) (hk : k = 43 ∨ k = 61) :
    sharedKeys k e
      = if e.st.intensity < 100 then e.store (wrapInt32 (e.st.intensity + 5)) else e := by
  rcases hk with rfl | rfl <;> simp [sharedKeys]

theorem sharedKeys_minus (k : Int) (e : Exec) (hk : k = 45 ∨ k = 95) :
    sharedKeys k e
      = if e.st.intensity > 0 then e.store (wrapInt32 (e.st.intensity - 5)) else e := by
  rcases hk with rfl | rfl <;> simp [sharedKeys]

/-! ## The key table -/

/-- C3: for every intensity i in [0, 100], handling `+` or `=` leaves
min(100, max(0, i + 5)), handling `-` or `_` leaves min(100, max(0, i - 5)), the Up
sequence 27, 91, 65 leaves min(100, max(0, i + 1)) and the Down sequence 27, 91, 66
leaves min(100, max(0, i - 1)); the running flag is unchanged and exactly the codes of
the key are taken from the input. -/
theorem relative_keys_clamped_add (s : State) (rest log : List Int)
    (h0 : 0 ≤ s.intensity) (h1 : s.intensity ≤ 100) :
    (∀ k, k = 43 ∨ k = 61 →
      (handleKey ⟨s, k :: rest, log⟩).st = ⟨s.running, min 100 (max 0 (s.intensity + 5))⟩ ∧
      (handleKey ⟨s, k :: rest, log⟩).kbd = rest) ∧
    (∀ k, k = 45 ∨ k = 95 →
      (handleKey ⟨s, k :: rest, log⟩).st = ⟨s.running, min 100 (max 0 (s.intensity - 5))⟩ ∧
      (handleKey ⟨s, k :: rest, log⟩).kbd = rest) ∧
    ((handleKey ⟨s, 27 :: 91 :: 65 :: rest, log⟩).st
        = ⟨s.running, min 100 (max 0 (s.intensity + 1))⟩ ∧
      (handleKey ⟨s, 27 :: 91 :: 65 :: rest, log⟩).kbd = rest) ∧
    ((handleKey ⟨s, 27 :: 91 :: 66 :: rest, log⟩).st
        = ⟨s.running, min 100 (max 0 (s.intensity - 1))⟩ ∧
      (handleKey ⟨s, 27 :: 91 :: 66 :: rest, log⟩).kbd = rest) := by
  refine ⟨?_, ?_, ?_, ?_⟩
  · intro k hk
    have hk27 : k ≠ 27 := by omega
    have hkE : k ≠ EOF := by unfold EOF; omega
    rw [handleKey_single _ _ _ _ hk27, if_neg hkE, sharedKeys_plus _ _ hk]
    refine ⟨State.eq_of_fields ?_ ?_, ?_⟩
    · rw [boundsCheck_running]; split_ifs <;> rfl
    · rw [boundsCheck_intensity]
      split_ifs with h
      · rw [store_intensity, wrapInt32_of_small _ (by dsimp only at h ⊢; omega) (by dsimp only at h ⊢; omega)]
      · dsimp only at h ⊢; omega
    · rw [boundsCheck_kbd]; split_ifs <;> rfl
  · intro k hk
    have hk27 : k ≠ 27 := by omega
    have hkE : k ≠ EOF := by unfold EOF; omega
    rw [handleKey_single _ _ _ _ hk27, if_neg hkE, sharedKeys_minus _ _ hk]
    refine ⟨State.eq_of_fields ?_ ?_, ?_⟩
    · rw [boundsCheck_running]; split_ifs <;> rfl
    · rw [boundsCheck_intensity]
      split_ifs with h
      · rw [store_intensity, wrapInt32_of_small _ (by dsimp only at h ⊢; omega) (by dsimp only at h ⊢; omega)]
      · dsimp only at h ⊢; omega
    · rw [boundsCheck_kbd]; split_ifs <;> rfl
  · rw [handleKey_up]
    refine ⟨State.eq_of_fields ?_ ?_, ?_⟩
    · rw [boundsCheck_running]; split_ifs <;> rfl
    · rw [boundsCheck_intensity]
      split_ifs with h
      · rw [store_intensity, wrapInt32_of_small _ (by omega) (by omega)]
      · dsimp only at h ⊢; omega
    · rw [boundsCheck_kbd]; split_ifs <;> rfl
  · rw [handleKey_down]
    refine ⟨State.eq_of_fields ?_ ?_, ?_⟩
    · rw [boundsCheck_running]; split_ifs <;> rfl
    · rw [boundsCheck_intensity]
      split_ifs with h
      · rw [store_intensity, wrapInt32_of_small _ (by omega) (by omega)]
      · dsimp only at h ⊢; omega
    · rw [boundsCheck_kbd]; split_ifs <;> rfl

/-- Witness of C3: at intensity 98 the key `+` leaves 100 and the flag as it was. -/
theorem relative_keys_clamped_add_witness :
    (handleKey ⟨State.mk true 98, [43, 7], []⟩).st
      = State.mk true (min 100 (max 0 ((98 : Int) + 5))) ∧
    (handleKey ⟨State.mk true 98, [43, 7], []⟩).kbd = [7] :=
  (relative_keys_clamped_add (State.mk true 98) [7] [] (by decide) (by decide)).1 43
    (Or.inl rfl)

theorem handleKey_absolute (s : State) (k v : Int) (rest log : List Int)
    (hkv : (k = 48 ∧ v = 0) ∨ (k = 53 ∧ v = 50) ∨ (k = 57 ∧ v = 100)) :
    handleKey ⟨s, k :: rest, log⟩ = ⟨⟨s.running, v⟩, rest, log ++ [v]⟩ := by
  have hk27 : k ≠ 27 := by omega
  have hkE : k ≠ EOF := by unfold EOF; omega
  rw [handleKey_single _ _ _ _ hk27, if_neg hkE]
  have hs : sharedKeys k ⟨s, rest, log⟩ = ⟨⟨s.running, v⟩, rest, log ++ [v]⟩ := by
    rcases hkv with ⟨rfl, rfl⟩ | ⟨rfl, rfl⟩ | ⟨rfl, rfl⟩ <;> simp [sharedKeys, Exec.store]
  rw [hs]
  apply boundsCheck_of_range
  · show 0 ≤ v
    omega
  · show v ≤ 100
    omega

/-- C4: for every current intensity (any integer), the key `0` leaves intensity 0, the
key `5` leaves 50 and the key `9` leaves 100; handling the same key a second time leaves
the shared state as the first left it; the running flag is not modified. -/
theorem absolute_keys_idempotent (s : State) (rest log : List Int) :
    (handleKey ⟨s, 48 :: rest, log⟩).st = ⟨s.running, 0⟩ ∧
    (handleKey ⟨s, 53 :: rest, log⟩).st = ⟨s.running, 50⟩ ∧
    (handleKey ⟨s, 57 :: rest, log⟩).st = ⟨s.running, 100⟩ ∧
    (handleKey (handleKey ⟨s, 48 :: 48 :: rest, log⟩)).st
      = (handleKey ⟨s, 48 :: 48 :: rest, log⟩).st ∧
    (handleKey (handleKey ⟨s, 53 :: 53 :: rest, log⟩)).st
      = (handleKey ⟨s, 53 :: 53 :: rest, log⟩).st ∧
    (handleKey (handleKey ⟨s, 57 :: 57 :: rest, log⟩)).st
      = (handleKey ⟨s, 57 :: 57 :: rest, log⟩).st := by
  refine ⟨?_, ?_, ?_, ?_, ?_, ?_⟩
  · rw [handleKey_absolute s 48 0 rest log (by omega)]
  · rw [handleKey_absolute s 53 50 rest log (by omega)]
  · rw [handleKey_absolute s 57 100 rest log (by omega)]
  · rw [handleKey_absolute s 48 0 _ log (by omega), handleKey_absolute _ 48 0 rest _ (by omega)]
  · rw [handleKey_absolute s 53 50 _ log (by omega), handleKey_absolute _ 53 50 rest _ (by omega)]
  · rw [handleKey_absolute s 57 100 _ log (by omega),
      handleKey_absolute _ 57 100 rest _ (by omega)]

/-! ## Escape sequences -/

/-- C5, the code at the failing inputs: after the prefix 27, 91 the third code is
assigned to `key` and line 291 tests it, so 27, 91, `q` clears the running flag,
27, 91, `5` stores 50, 27, 91, `9` stores 100, 27, 91, `0` stores 0, 27, 91, `+` adds 5
and 27, 91, `-` subtracts 5. -/
theorem escape_sequence_reaches_key_table :
    (handleKey (startExec (State.mk true 30) [27, 91, 113])).st = State.mk false 30 ∧
    (handleKey (startExec (State.mk true 30) [27, 91, 81])).st = State.mk false 30 ∧
    (handleKey (startExec (State.mk true 30) [27, 91, 53, 126])).st = State.mk true 50 ∧
    (handleKey (startExec (State.mk true 30) [27, 91, 57])).st = State.mk true 100 ∧
    (handleKey (startExec (State.mk true 30) [27, 91, 48])).st = State.mk true 0 ∧
    (handleKey (startExec (State.mk true 30) [27, 91, 43])).st = State.mk true 35 ∧
    (handleKey (startExec (State.mk true 30) [27, 91, 45])).st = State.mk true 25 := by
  decide

/-- The part of the escape handling that leaves the state alone: 27 followed by a code
other than 91 takes both codes and changes nothing, and 27, 91, k changes nothing when
k is neither an arrow code nor a code of the key table. -/
theorem escape_other_codes_ignored (s : State) (k : Int) (rest log : List Int)
    (h0 : 0 ≤ s.intensity) (h1 : s.intensity ≤ 100) :
    (k ≠ 91 → handleKey ⟨s, 27 :: k :: rest, log⟩ = ⟨s, rest, log⟩) ∧
    (k ≠ 65 → k ≠ 66 → k ≠ 113 → k ≠ 81 → k ≠ 43 → k ≠ 61 → k ≠ 45 → k ≠ 95 →
      k ≠ 48 → k ≠ 53 → k ≠ 57 →
      handleKey ⟨s, 27 :: 91 :: k :: rest, log⟩ = ⟨s, rest, log⟩) := by
  constructor
  · intro hk
    have e1 : handleKey ⟨s, 27 :: k :: rest, log⟩ = boundsCheck ⟨s, rest, log⟩ := by
      by_cases h : k = -1
      · subst h
        simp [handleKey, getKey, escapeBlock, EOF, sharedKeys]
      · simp [handleKey, getKey, escapeBlock, EOF, h, hk, sharedKeys]
    rw [e1]
    exact boundsCheck_of_range _ h0 h1
  · intro a b c d e f g h i j l
    have e1 : handleKey ⟨s, 27 :: 91 :: k :: rest, log⟩ = boundsCheck ⟨s, rest, log⟩ := by
      by_cases hE : k = -1
      · subst hE
        simp [handleKey, getKey, escapeBlock, EOF, sharedKeys]
      · simp [handleKey, getKey, escapeBlock, hE, EOF, sharedKeys, a, b, c, d, e, f, g, h, i,
          j, l]
    rw [e1]
    exact boundsCheck_of_range _ h0 h1

/-! ## The running flag -/

theorem getKey_st (e : Exec) : (getKey e).2.st = e.st := by
  rcases e with ⟨s, kbd, log⟩
  cases kbd <;> simp [getKey]

theorem escapeBlock_running (key : Int) (e : Exec) :
    (escapeBlock key e).2.st.running = e.st.running := by
  have a := getKey_st e
  have b := getKey_st (getKey e).2
  unfold escapeBlock
  dsimp only
  split_ifs <;> simp only [store_running, a, b]

theorem sharedKeys_running (key : Int) (e : Exec) :
    (sharedKeys key e).st.running = (e.st.running && decide (key ≠ 113 ∧ key ≠ 81)) := by
  unfold sharedKeys
  by_cases hq : key = 113 ∨ key = 81
  · rw [if_pos hq, stop_running]
    rcases hq with h | h <;> simp [h]
  · rw [if_neg hq]
    have h1 : key ≠ 113 ∧ key ≠ 81 := by
      constructor <;> intro h <;> exact hq (by simp [h])
    have h2 : decide (key ≠ 113 ∧ key ≠ 81) = true := decide_eq_true h1
    rw [h2, Bool.and_true]
    split_ifs <;> rfl

theorem handleKey_running (e : Exec) :
    (handleKey e).st.running
      = (e.st.running && decide (keyTested e ≠ 113 ∧ keyTested e ≠ 81)) := by
  unfold handleKey keyTested
  dsimp only
  rw [boundsCheck_running, sharedKeys_running, escapeBlock_running, getKey_st]

theorem keyTested_single (s : State) (k : Int) (rest log : List Int) (hk : k ≠ 27) :
    keyTested ⟨s, k :: rest, log⟩ = if k = EOF then 0 else k := by
  by_cases h : k = -1
  · subst h
    simp [keyTested, getKey, escapeBlock, EOF]
  · simp [keyTested, getKey, escapeBlock, EOF, h, hk]

/-- The running flag after a key is handled equals (running before AND the value of
`key` tested at line 291 is neither `q` nor `Q`), for every state and every input
waiting; so no input sets the flag back to true; for a first code k other than the
escape code 27 the value tested is k itself; `q` and `Q` clear the flag and, for an
intensity in [0, 100], leave the intensity as it was; the store in `start` writes
false. After the codes 27, 91 the value tested is the third code. -/
theorem running_after_key (e : Exec) (s : State) (k : Int)
    (rest log : List Int) :
    (handleKey e).st.running
      = (e.st.running && decide (keyTested e ≠ 113 ∧ keyTested e ≠ 81)) ∧
    ((handleKey e).st.running = true → e.st.running = true) ∧
    (k ≠ 27 → (handleKey ⟨s, k :: rest, log⟩).st.running
      = (s.running && decide (k ≠ 113 ∧ k ≠ 81))) ∧
    (k = 113 ∨ k = 81 → 0 ≤ s.intensity → s.intensity ≤ 100 →
      (handleKey ⟨s, k :: rest, log⟩).st = ⟨false, s.intensity⟩) ∧
    (shutdownStore s).running = false := by
  refine ⟨handleKey_running e, ?_, ?_, ?_, rfl⟩
  · intro h
    rw [handleKey_running] at h
    exact (Bool.and_eq_true_iff.mp h).1
  · intro hk
    rw [handleKey_running, keyTested_single _ _ _ _ hk]
    by_cases h : k = -1
    · subst h
      simp [EOF]
    · have h2 : ¬ k = EOF := h
      rw [if_neg h2]
  · intro hk h0 h1
    have hk27 : k ≠ 27 := by omega
    have hkE : k ≠ EOF := by unfold EOF; omega
    rw [handleKey_single _ _ _ _ hk27, if_neg hkE]
    have hs : sharedKeys k ⟨s, rest, log⟩ = ⟨⟨false, s.intensity⟩, rest, log⟩ := by
      rcases hk with rfl | rfl <;> simp [sharedKeys, Exec.stop]
    rw [hs, boundsCheck_of_range _ h0 h1]

/-- C6, the code at the failing input: with running = true the codes 27, 91, `q` and
27, 91, `Q`, whose first code is neither `q` nor `Q`, leave running = false, so the flag
after the step differs from (running before AND the first code is neither `q` nor `Q`);
the input loop started in the initial state on 27, 91, `q` stops with running = false.
The codes 27, `q` without the bracket leave the flag true. -/
theorem escape_then_q_clears_running :
    (handleKey (startExec (State.mk true 40) [27, 91, 113])).st = State.mk false 40 ∧
    (handleKey (startExec (State.mk true 40) [27, 91, 81])).st = State.mk false 40 ∧
    (handleKey (startExec (State.mk true 40) [27, 91, 113])).st.running
      ≠ (true && decide ((27 : Int) ≠ 113 ∧ (27 : Int) ≠ 81)) ∧
    keyTested (startExec (State.mk true 40) [27, 91, 113]) = 113 ∧
    (handleInputLoop 3 (startExec initial [27, 91, 113])).2.st.running = false ∧
    (handleKey (startExec (State.mk true 40) [27, 113])).st = State.mk true 40 := by
  decide

/-! ## Unrecognised keys -/

theorem sharedKeys_other (key : Int) (e : Exec) (h1 : key ≠ 113) (h2 : key ≠ 81)
    (h3 : key ≠ 43) (h4 : key ≠ 61) (h5 : key ≠ 45) (h6 : key ≠ 95) (h7 : key ≠ 48)
    (h8 : key ≠ 53) (h9 : key ≠ 57) : sharedKeys key e = e := by
  simp [sharedKeys, h1, h2, h3, h4, h5, h6, h7, h8, h9]

/-- C7: for every state with intensity in [0, 100] and every single code that is not
the escape prefix 27 and not one of `q`, `Q`, `+`, `=`, `-`, `_`, `0`, `5`, `9`, handling
the key takes that code from the input, stores nothing and leaves intensity and running
exactly as they were; the same holds when nothing is waiting and `getKey` returns its
"no key" value 0. -/
theorem unrecognized_keys_ignored (s : State) (k : Int) (rest log : List Int)
    (h0 : 0 ≤ s.intensity) (h1 : s.intensity ≤ 100)
    (hk : k ≠ 27 ∧ k ≠ 113 ∧ k ≠ 81 ∧ k ≠ 43 ∧ k ≠ 61 ∧ k ≠ 45 ∧ k ≠ 95 ∧ k ≠ 48 ∧
      k ≠ 53 ∧ k ≠ 57) :
    handleKey ⟨s, k :: rest, log⟩ = ⟨s, rest, log⟩ ∧
    handleKey ⟨s, [], log⟩ = ⟨s, [], log⟩ := by
  obtain ⟨k27, a, b, c, d, e, f, g, h, i⟩ := hk
  constructor
  · rw [handleKey_single _ _ _ _ k27]
    by_cases hE : k = EOF
    · rw [if_pos hE, sharedKeys_other 0 _ (by decide) (by decide) (by decide) (by decide)
        (by decide) (by decide) (by decide) (by decide) (by decide)]
      exact boundsCheck_of_range _ h0 h1
    · rw [if_neg hE, sharedKeys_other k _ a b c d e f g h i]
      exact boundsCheck_of_range _ h0 h1
  · have e1 : handleKey ⟨s, [], log⟩ = boundsCheck ⟨s, [], log⟩ := by
      simp [handleKey, getKey, escapeBlock, sharedKeys]
    rw [e1]
    exact boundsCheck_of_range _ h0 h1

/-- Witness of C7: at running = true, intensity = 40 the code 0 and the code of `a`
change nothing. -/
theorem unrecognized_keys_ignored_witness :
    handleKey ⟨State.mk true 40, [0, 97], [5]⟩ = ⟨State.mk true 40, [97], [5]⟩ ∧
    handleKey ⟨State.mk true 40, [], [5]⟩ = ⟨State.mk true 40, [], [5]⟩ :=
  unrecognized_keys_ignored (State.mk true 40) 0 [97] [5] (by decide) (by decide)
    (by decide)

/-! ## Load worker budget -/

theorem calculationTimeMs_of_range (i : Int) (h0 : 0 ≤ i) (h1 : i ≤ 100) :
    calculationTimeMs i = i := by
  unfold calculationTimeMs CYCLE_TIME_MS
  rw [wrapInt32_of_small _ (by omega) (by omega)]
  exact Int.mul_tdiv_cancel i (by decide)

/-- C8: with CYCLE_TIME_MS = 100, for every intensity in [0, 100] the busy budget
`calculationTimeMs` is (intensity * 100) / 100 without wrap, which is the intensity
itself; it lies in [0, CYCLE_TIME_MS], is 0 for intensity 0 and CYCLE_TIME_MS for
intensity 100, and the calculation end is never after the cycle end. At intensity 0 the
busy loop is not entered from the cycle start on, and at intensity 100 no idle sleep
follows a calculation that ran to its end. -/
theorem busy_budget (i : Int) (h0 : 0 ≤ i) (h1 : i ≤ 100) (ticksPerMs : Nat)
    (cycleStart now : Int) (running : Bool) :
    CYCLE_TIME_MS = 100 ∧
    calculationTimeMs i = Int.tdiv (i * 100) 100 ∧
    calculationTimeMs i = i ∧
    (0 ≤ calculationTimeMs i ∧ calculationTimeMs i ≤ CYCLE_TIME_MS) ∧
    calculationTimeMs 0 = 0 ∧
    calculationTimeMs 100 = CYCLE_TIME_MS ∧
    calculationEnd ticksPerMs cycleStart i ≤ cycleEnd ticksPerMs cycleStart ∧
    (cycleStart ≤ now →
      busyCondition now (calculationEnd ticksPerMs cycleStart 0) running = false) ∧
    (calculationEnd ticksPerMs cycleStart 100 ≤ now →
      idleSleep now (cycleEnd ticksPerMs cycleStart) = none) := by
  have hi := calculationTimeMs_of_range i h0 h1
  have hz := calculationTimeMs_of_range 0 (by decide) (by decide)
  have hc := calculationTimeMs_of_range 100 (by decide) (by decide)
  refine ⟨rfl, ?_, hi, ?_, hz, hc, ?_, ?_, ?_⟩
  · rw [hi]
    exact (Int.mul_tdiv_cancel i (by decide)).symm
  · rw [hi]
    exact ⟨h0, h1⟩
  · unfold calculationEnd cycleEnd
    rw [hi]
    unfold CYCLE_TIME_MS
    have := mul_le_mul_of_nonneg_right h1 (Int.ofNat_nonneg ticksPerMs)
    omega
  · intro hn
    unfold busyCondition calculationEnd
    rw [hz]
    have : ¬ now < cycleStart + 0 * (ticksPerMs : Int) := by omega
    rw [decide_eq_false this]
    rfl
  · intro hn
    unfold calculationEnd at hn
    rw [hc] at hn
    unfold idleSleep cycleEnd
    unfold CYCLE_TIME_MS
    rw [if_neg (by omega)]

/-- Witness of C8: at intensity 37 with a nanosecond clock the budget is 37 ms and the
calculation end is not after the cycle end. -/
theorem busy_budget_witness :
    calculationTimeMs 37 = 37 ∧
    calculationEnd 1000000 5000 37 ≤ cycleEnd 1000000 5000 :=
  ⟨(busy_budget 37 (by decide) (by decide) 1000000 5000 5000 true).2.2.1,
   (busy_budget 37 (by decide) (by decide) 1000000 5000 5000 true).2.2.2.2.2.2.1⟩

/-! ## Display -/

/-- C9: for every intensity value, the label written, without its padding blanks, is
"MAXIMUM LOAD" iff intensity > 75, "HIGH LOAD" iff 40 < intensity <= 75 and
"MODERATE LOAD" iff intensity <= 40, and the color is COLOR_HOT, COLOR_WARM, COLOR_COOL
in the same three bands; 76 gives MAXIMUM LOAD, 75 and 41 give HIGH LOAD and 40 gives
MODERATE LOAD. -/
theorem display_bands (i : Int) :
    (unpadded (displayLabel i) = "MAXIMUM LOAD" ↔ i > 75) ∧
    (unpadded (displayLabel i) = "HIGH LOAD" ↔ 40 < i ∧ i ≤ 75) ∧
    (unpadded (displayLabel i) = "MODERATE LOAD" ↔ i ≤ 40) ∧
    (displayColor i = COLOR_HOT ↔ i > 75) ∧
    (displayColor i = COLOR_WARM ↔ 40 < i ∧ i ≤ 75) ∧
    (displayColor i = COLOR_COOL ↔ i ≤ 40) ∧
    unpadded (displayLabel 76) = "MAXIMUM LOAD" ∧
    unpadded (displayLabel 75) = "HIGH LOAD" ∧
    unpadded (displayLabel 41) = "HIGH LOAD" ∧
    unpadded (displayLabel 40) = "MODERATE LOAD" := by
  have closed : unpadded (displayLabel 76) = "MAXIMUM LOAD" ∧
      unpadded (displayLabel 75) = "HIGH LOAD" ∧
      unpadded (displayLabel 41) = "HIGH LOAD" ∧
      unpadded (displayLabel 40) = "MODERATE LOAD" := by decide
  by_cases h1 : i > 75
  · have hl : displayLabel i = "MAXIMUM LOAD    " := by unfold displayLabel; rw [if_pos h1]
    have hc : displayColor i = COLOR_HOT := by unfold displayColor; rw [if_pos h1]
    rw [hl, hc]
    exact ⟨iff_of_true (by decide) h1, iff_of_false (by decide) (by omega),
      iff_of_false (by decide) (by omega), iff_of_true rfl h1,
      iff_of_false (by decide) (by omega), iff_of_false (by decide) (by omega), closed⟩
  · by_cases h2 : i > 40
    · have hl : displayLabel i = "HIGH LOAD       " := by
        unfold displayLabel; rw [if_neg h1, if_pos h2]
      have hc : displayColor i = COLOR_WARM := by
        unfold displayColor; rw [if_neg h1, if_pos h2]
      rw [hl, hc]
      exact ⟨iff_of_false (by decide) h1, iff_of_true (by decide) ⟨h2, by omega⟩,
        iff_of_false (by decide) (by omega), iff_of_false (by decide) h1,
        iff_of_true rfl ⟨h2, by omega⟩, iff_of_false (by decide) (by omega), closed⟩
    · have hl : displayLabel i = "MODERATE LOAD   " := by
        unfold displayLabel; rw [if_neg h1, if_neg h2]
      have hc : displayColor i = COLOR_COOL := by
        unfold displayColor; rw [if_neg h1, if_neg h2]
      rw [hl, hc]
      exact ⟨iff_of_false (by decide) h1, iff_of_false (by decide) (by omega),
        iff_of_true (by decide) (by omega), iff_of_false (by decide) h1,
        iff_of_false (by decide) (by omega), iff_of_true rfl (by omega), closed⟩

theorem map_range_threshold (k n : Nat) :
    (List.range n).map (fun c => if c < k then '#' else ' ')
      = List.replicate (min k n) '#' ++ List.replicate (n - k) ' ' := by
  induction n with
  | zero => simp
  | succ n ih =>
    rw [List.range_succ, List.map_append, ih]
    by_cases h : n < k
    · have e1 : min k n = n := by omega
      have e2 : min k (n + 1) = n + 1 := by omega
      have e3 : n - k = 0 := by omega
      have e4 : n + 1 - k = 0 := by omega
      rw [e1, e2, e3, e4]
      simp [h, List.replicate_succ']
    · have e1 : min k n = k := by omega
      have e2 : min k (n + 1) = k := by omega
      have e4 : n + 1 - k = (n - k) + 1 := by omega
      rw [e1, e2, e4]
      simp [h, List.replicate_succ']

theorem displayBar_of_nonneg (i : Int) (h0 : 0 ≤ i) :
    displayBar i = (List.range 50).map (fun c => if c < i.toNat / 2 then '#' else ' ') := by
  unfold displayBar
  apply List.map_congr_left
  intro c _
  have h : ((c : Int) < Int.tdiv i 2) ↔ c < i.toNat / 2 := by
    rw [Int.tdiv_eq_ediv h0 (by decide)]
    omega
  by_cases hc : c < i.toNat / 2
  · rw [if_pos hc, if_pos (h.mpr hc)]
  · rw [if_neg hc, if_neg (fun x => hc (h.mp x))]

/-- C10: for every intensity in [0, 100] the bar has exactly 50 cells, the first
floor(intensity / 2) of them `#` and the remaining 50 - floor(intensity / 2) blank, so
the filled cells are a prefix of the bar; intensity 100 gives 50 filled cells, 1 gives
0, 3 gives 1 and 75 gives 37. -/
theorem bar_fill (i : Int) (h0 : 0 ≤ i) (h1 : i ≤ 100) :
    (displayBar i).length = 50 ∧
    displayBar i
      = List.replicate (i.toNat / 2) '#' ++ List.replicate (50 - i.toNat / 2) ' ' ∧
    filledCells (displayBar i) = i.toNat / 2 ∧
    filledCells (displayBar 100) = 50 ∧
    filledCells (displayBar 1) = 0 ∧
    filledCells (displayBar 3) = 1 ∧
    filledCells (displayBar 75) = 37 := by
  have hb : displayBar i
      = List.replicate (i.toNat / 2) '#' ++ List.replicate (50 - i.toNat / 2) ' ' := by
    rw [displayBar_of_nonneg i h0, map_range_threshold]
    have : min (i.toNat / 2) 50 = i.toNat / 2 := by omega
    rw [this]
  refine ⟨?_, hb, ?_, by decide, by decide, by decide, by decide⟩
  · unfold displayBar
    simp
  · rw [hb]
    unfold filledCells
    simp [List.count_replicate]

/-- Witness of C10: at intensity 75 the bar is 37 `#` cells followed by 13 blanks. -/
theorem bar_fill_witness :
    (displayBar 75).length = 50 ∧
    displayBar 75
      = List.replicate ((75 : Int).toNat / 2) '#'
        ++ List.replicate (50 - (75 : Int).toNat / 2) ' ' :=
  ⟨(bar_fill 75 (by decide) (by decide)).1, (bar_fill 75 (by decide) (by decide)).2.1⟩

end CPUHeater
